import Mathlib

set_option maxHeartbeats 1000000
set_option maxRecDepth 10000

attribute [local semireducible] Rat.mul Rat.inv Rat.add Rat.sub

/-
Shallow embedding of `src/code.ts` (the "Color Merger" Figma plugin).

Modelling conventions:
* JS numbers (IEEE doubles) are embedded as rationals `ℚ`; the bit
  operations of `hexToRgb` go through explicit `% 2^32` arithmetic,
  mirroring the ECMAScript `ToInt32` coercion applied by `>>` and `&`.
* JS strings are Lean `String` / `List Char`.
* The host document is a list of nodes; `figma.getNodeByIdAsync` is
  `List.find?` on node ids; a paint-list assignment that throws (locked
  node, instance restriction, ...) is modelled by a per-node `writeFails`
  flag: when set, the assignment statement raises and is caught by the
  surrounding `try`/`catch`, leaving the document unchanged.
-/

/-- RGB color record, as produced by `hexToRgb` and stored in `paint.color`. -/
structure RGB where
  r : ℚ
  g : ℚ
  b : ℚ
deriving DecidableEq, Repr

/-- Color record produced by `extractPaints`: `{r, g, b, a: p.opacity ?? 1}`. -/
structure RGBA where
  r : ℚ
  g : ℚ
  b : ℚ
  a : ℚ
deriving DecidableEq, Repr

/-- One paint of a node's fill/stroke list.  `type` is the Figma type tag
(`"SOLID"`, `"GRADIENT_LINEAR"`, ...); `visible`/`opacity`/`blendMode` are
optional in the host API, hence `Option`. -/
structure Paint where
  type : String
  visible : Option Bool
  opacity : Option ℚ
  blendMode : Option String
  color : RGB
deriving DecidableEq, Repr

/-- A node's `fills` / `strokes` property: missing (`"fills" in node` is
false), the `figma.mixed` sentinel, or an actual paint list. -/
inductive PaintProp where
  | absent
  | mixed
  | list (paints : List Paint)
deriving DecidableEq, Repr

/-- A document node.  `writeFails` models a node on which assigning
`node.fills = ...` / `node.strokes = ...` throws (locked node, instance
that forbids property writes). -/
structure Node where
  id : String
  fills : PaintProp
  strokes : PaintProp
  writeFails : Bool
deriving DecidableEq, Repr

/-- The document: `figma.currentPage.findAll()` in traversal order. -/
abbrev Doc := List Node

/-- Reference pushed by `scanColors`: `{nodeId, source: 'fill'|'stroke', index}`. -/
structure PaintRef where
  nodeId : String
  source : String
  index : ℕ
deriving DecidableEq, Repr

/-- Value of the scan map: `{color, hex, nodes}`. -/
structure ColorEntry where
  color : RGBA
  hex : String
  nodes : List PaintRef
deriving DecidableEq, Repr

/-- The scan map `colorMap` (a JS object keyed by hex), kept in insertion
order as an association list. -/
abbrev ColorMap := List (String × ColorEntry)

/-- A cluster (called `group` in the source) produced by
`groupSimilarColors`: `{representative, members}`. -/
structure ColorGroup where
  representative : ColorEntry
  members : List ColorEntry
deriving DecidableEq, Repr

/-- A named paint style created by `figma.createPaintStyle()`. -/
structure PaintStyle where
  name : String
  paints : List Paint
deriving DecidableEq, Repr

-- ─── Color codec ─────────────────────────────────────────────────────────────

/-- Value of a hexadecimal digit character, `none` for non-hex characters. -/
def hexDigitVal (c : Char) : Option ℕ :=
  if '0' ≤ c ∧ c ≤ '9' then some (c.toNat - 48)
  else if 'a' ≤ c ∧ c ≤ 'f' then some (c.toNat - 87)
  else if 'A' ≤ c ∧ c ≤ 'F' then some (c.toNat - 55)
  else none

/-- Accumulating base-16 evaluation of the longest hex-digit prefix; stops at
the first non-hex character (as `parseInt(_, 16)` does). -/
def parseHexAux (acc : ℕ) : List Char → ℕ
  | [] => acc
  | c :: cs =>
    match hexDigitVal c with
    | some d => parseHexAux (16 * acc + d) cs
    | none => acc

/-- Sign handling of `parseInt`: strips one leading `'-'` or `'+'`. -/
def parseSign (s : List Char) : Bool × List Char :=
  match s with
  | c :: t => if c = '-' then (true, t) else if c = '+' then (false, t) else (false, s)
  | [] => (false, s)

/-- Radix-16 `parseInt` accepts an optional `0x`/`0X` prefix. -/
def drop0x (s : List Char) : List Char :=
  match s with
  | c0 :: c1 :: t => if c0 = '0' ∧ (c1 = 'x' ∨ c1 = 'X') then t else s
  | _ => s

/-- `parseInt(s, 16)`: leading whitespace skipped, optional sign, optional
`0x` prefix, then the longest hex-digit prefix; `none` is `NaN` (no digit).
(The double-precision rounding JS applies to integers above `2^53` is not
modelled; color keys are far below that.) -/
def jsParseInt16 (s : List Char) : Option ℤ :=
  let sgn := parseSign (s.dropWhile Char.isWhitespace)
  let u := drop0x sgn.2
  match u with
  | [] => none
  | c :: _ =>
    if (hexDigitVal c).isSome then
      some ((if sgn.1 then -1 else 1) * (parseHexAux 0 u : ℤ))
    else none

/-- `hex.replace("#", "")` — JS `String.replace` with a string pattern
replaces only the first occurrence. -/
def removeFirstHash : List Char → List Char
  | [] => []
  | c :: t => if c = '#' then t else c :: removeFirstHash t

/-- The unsigned 32-bit pattern of the `ToInt32` coercion that `>>`/`&`
apply to their operands; `ToInt32 NaN = 0`. -/
def u32Of : Option ℤ → ℕ
  | none => 0
  | some n => (n % 4294967296).toNat

/-- `hexToRgb` from the source: parse, then split the 24-bit value with
`>> 16 & 255`, `>> 8 & 255`, `& 255` and divide by 255.  Extracting 8 bits
after an arithmetic shift of the `ToInt32` value equals extracting the same
bits of the unsigned 32-bit pattern, which is how it is written here. -/
def hexToRgb (hex : String) : RGB :=
  let u := u32Of (jsParseInt16 (removeFirstHash hex.data))
  ⟨((u / 65536 % 256 : ℕ) : ℚ) / 255,
   ((u / 256 % 256 : ℕ) : ℚ) / 255,
   ((u % 256 : ℕ) : ℚ) / 255⟩

/-- `Math.round`: round half toward positive infinity, `⌊x + 1/2⌋`.
(`Rat.floor` is used for the sake of kernel computability; `jsRound_eq_floor`
identifies it with the mathematical floor.) -/
def jsRound (q : ℚ) : ℤ := (q + 1/2).floor

/-- Base-16 digit characters of a natural number, lowercase, most
significant first (`Number.prototype.toString(16)` for nonnegative
integers); `0` renders as `"0"`. -/
def hexDigits (n : ℕ) : List Char := Nat.toDigits 16 n

/-- `Number.prototype.toString(16)` on an integer. -/
def jsIntToString16 (n : ℤ) : List Char :=
  if n < 0 then '-' :: hexDigits n.natAbs else hexDigits n.toNat

/-- `padStart(2, "0")`. -/
def padStart2 (s : List Char) : List Char :=
  if s.length < 2 then List.replicate (2 - s.length) '0' ++ s else s

/-- One channel of `toHex`: `Math.round(v * 255).toString(16).padStart(2, "0")`. -/
def toHexChan (v : ℚ) : List Char := padStart2 (jsIntToString16 (jsRound (v * 255)))

/-- `toHex` from the source: the three padded channels joined and uppercased. -/
def toHex (r g b : ℚ) : String :=
  ⟨(toHexChan r ++ toHexChan g ++ toHexChan b).map Char.toUpper⟩

-- ─── Distance metric ─────────────────────────────────────────────────────────

/-- The radicand of `colorDistance`: `dr*dr + dg*dg + db*db` with each delta
scaled by 255. -/
def colorDistSq (a b : RGBA) : ℚ :=
  ((a.r - b.r) * 255) * ((a.r - b.r) * 255)
    + ((a.g - b.g) * 255) * ((a.g - b.g) * 255)
    + ((a.b - b.b) * 255) * ((a.b - b.b) * 255)

/-- The comparison `colorDistance(a, b) <= threshold` used by
`groupSimilarColors`.  `Math.sqrt s ≤ t` holds iff `0 ≤ t ∧ s ≤ t²` (for
`t < 0` it is false since the square root is nonnegative), which is the
decidable rational form used here; `distLE_iff_sqrt` below proves the
equivalence against the real square root. -/
def distLE (a b : RGBA) (t : ℚ) : Bool :=
  decide (0 ≤ t) && decide (colorDistSq a b ≤ t * t)

-- ─── Color Scanner ───────────────────────────────────────────────────────────

/-- `extractPaints`: `(!paints || paints === figma.mixed)` yields `[]`;
otherwise keep solid paints not explicitly hidden and record
`{r, g, b, a: p.opacity ?? 1}`. -/
def extractPaints : PaintProp → List RGBA
  | .absent => []
  | .mixed => []
  | .list ps =>
    (ps.filter (fun p => p.type = "SOLID" ∧ p.visible ≠ some false)).map
      (fun p => ⟨p.color.r, p.color.g, p.color.b, p.opacity.getD 1⟩)

/-- `if (!colorMap[hex]) colorMap[hex] = {color: c, hex, nodes: []};
colorMap[hex].nodes.push(ref)` — new keys are appended in insertion order. -/
def mapPush : ColorMap → String → RGBA → PaintRef → ColorMap
  | [], h, c, r => [(h, ⟨c, h, [r]⟩)]
  | (k, e) :: tl, h, c, r =>
    if k = h then (k, { e with nodes := e.nodes ++ [r] }) :: tl
    else (k, e) :: mapPush tl h c r

/-- One `paints.forEach((c, i) => ...)` pass of `scanColors`. -/
def recordPaints (m : ColorMap) (nodeId src : String) (cs : List RGBA) : ColorMap :=
  cs.enum.foldl (fun m ic =>
    mapPush m (toHex ic.2.r ic.2.g ic.2.b) ic.2 ⟨nodeId, src, ic.1⟩) m

/-- `scanColors`: walk all nodes in traversal order; fills then strokes,
each guarded by `"fills" in node` / `"strokes" in node`. -/
def scanColors (doc : Doc) : ColorMap :=
  doc.foldl (fun m node =>
    let m1 :=
      match node.fills with
      | .absent => m
      | fp => recordPaints m node.id "fill" (extractPaints fp)
    match node.strokes with
    | .absent => m1
    | sp => recordPaints m1 node.id "stroke" (extractPaints sp)) []

/-- Decimal digit value of a character. -/
def decDigitVal (c : Char) : Option ℕ :=
  if '0' ≤ c ∧ c ≤ '9' then some (c.toNat - 48) else none

/-- Decimal evaluation of an all-digit character list. -/
def decNatAux (acc : ℕ) : List Char → Option ℕ
  | [] => some acc
  | c :: cs =>
    match decDigitVal c with
    | some d => decNatAux (10 * acc + d) cs
    | none => none

/-- Parse a nonempty all-decimal-digit character list (`String.toNat?`,
written on the character list so that it is kernel-computable). -/
def decNat? : List Char → Option ℕ
  | [] => none
  | l => decNatAux 0 l

/-- A JS object key that is a canonical array index
(`ToString(ToUint32(k)) = k` and `k ≠ "4294967295"`): `Object.values`
enumerates such keys first, in ascending numeric order. -/
def isArrayIndexKey (s : String) : Bool :=
  match decNat? s.data with
  | some n => decide (n < 4294967295) && (Nat.toDigits 10 n == s.data)
  | none => false

/-- Insertion step of the ascending numeric ordering of array-index keys. -/
def insertByKeyNum (x : String × ColorEntry) :
    List (String × ColorEntry) → List (String × ColorEntry)
  | [] => [x]
  | y :: ys =>
    if (decNat? x.1.data).getD 0 ≤ (decNat? y.1.data).getD 0 then x :: y :: ys
    else y :: insertByKeyNum x ys

/-- `Object.values(colorMap)`: array-index keys first in ascending numeric
order, then the remaining keys in insertion order. -/
def objectValues (m : ColorMap) : List ColorEntry :=
  ((m.filter (fun kv => isArrayIndexKey kv.1)).foldr insertByKeyNum []
      ++ m.filter (fun kv => !isArrayIndexKey kv.1)).map (fun kv => kv.2)

-- ─── Cluster Builder ─────────────────────────────────────────────────────────

/-- The inner `for (let j = i + 1; ...)` loop of `groupSimilarColors`:
collect every not-yet-assigned later entry within `threshold` of the
representative, marking each one assigned. -/
def innerLoop (t : ℚ) (rep : ColorEntry) :
    List ColorEntry → List String → List ColorEntry × List String
  | [], asg => ([], asg)
  | x :: xs, asg =>
    if asg.contains x.hex then innerLoop t rep xs asg
    else if distLE rep.color x.color t then
      let r := innerLoop t rep xs (x.hex :: asg)
      (x :: r.1, r.2)
    else innerLoop t rep xs asg

/-- The outer `for (let i = 0; ...)` loop of `groupSimilarColors`: start a
new group at each not-yet-assigned entry. -/
def outerLoop (t : ℚ) : List ColorEntry → List String → List ColorGroup
  | [], _ => []
  | e :: rest, asg =>
    if asg.contains e.hex then outerLoop t rest asg
    else
      let r := innerLoop t e rest (e.hex :: asg)
      ⟨e, e :: r.1⟩ :: outerLoop t rest r.2

/-- The group sequence in discovery order, before sorting. -/
def buildGroups (entries : List ColorEntry) (t : ℚ) : List ColorGroup :=
  outerLoop t entries []

/-- `g.members.reduce((s, m) => s + m.nodes.length, 0)`. -/
def totalCount (g : ColorGroup) : ℕ :=
  g.members.foldl (fun s m => s + m.nodes.length) 0

/-- Stable insertion step for the comparator `(a, b) => countB - countA`. -/
def insertByCountDesc (x : ColorGroup) : List ColorGroup → List ColorGroup
  | [] => [x]
  | y :: ys =>
    if totalCount y ≤ totalCount x then x :: y :: ys
    else y :: insertByCountDesc x ys

/-- `groups.sort((a, b) => countB - countA)`.  ECMAScript
`Array.prototype.sort` is specified to be stable, and for a consistent
comparator the stable sorted sequence is unique; it is produced here by a
stable insertion sort. -/
def sortByCountDesc (l : List ColorGroup) : List ColorGroup :=
  l.foldr insertByCountDesc []

/-- `groupSimilarColors(colorMap, threshold)`, applied to the entry
sequence `Object.values(colorMap)`. -/
def groupSimilarColors (entries : List ColorEntry) (t : ℚ) : List ColorGroup :=
  sortByCountDesc (buildGroups entries t)

-- ─── Merge Applier ───────────────────────────────────────────────────────────

/-- Mutation of the node object returned by `getNodeByIdAsync`: replace the
first node carrying the given id. -/
def updateFirst (doc : Doc) (id : String) (f : Node → Node) : Doc :=
  match doc with
  | [] => []
  | n :: ns => if n.id = id then f n :: ns else n :: updateFirst ns id f

/-- One loop body of `applyMerge` for a single reference: resolve the node
(`continue` when gone), guard on the slot kind, the `figma.mixed` sentinel
and the slot's paint type, then replace the slot's color and count the
write.  A node whose paint-list assignment throws (`writeFails`) is caught
by the surrounding `try`/`catch` and skipped without counting. -/
def applyRef (t : RGB) (st : Doc × ℕ) (ref : PaintRef) : Doc × ℕ :=
  match st.1.find? (fun n => n.id = ref.nodeId) with
  | none => st
  | some node =>
    if ref.source = "fill" then
      match node.fills with
      | .list l =>
        match l.get? ref.index with
        | some p =>
          if p.type = "SOLID" then
            if node.writeFails then st
            else
              (updateFirst st.1 ref.nodeId
                  (fun n => { n with fills := .list (l.set ref.index { p with color := t }) }),
                st.2 + 1)
          else st
        | none => st
      | _ => st
    else if ref.source = "stroke" then
      match node.strokes with
      | .list l =>
        match l.get? ref.index with
        | some p =>
          if p.type = "SOLID" then
            if node.writeFails then st
            else
              (updateFirst st.1 ref.nodeId
                  (fun n => { n with strokes := .list (l.set ref.index { p with color := t }) }),
                st.2 + 1)
          else st
        | none => st
      | _ => st
    else st

/-- The post-resolution guards of a single merge reference on a node: the
matching slot kind is a real paint list (present and not `figma.mixed`),
the slot holds a `SOLID` paint, and the paint-list assignment does not
throw. -/
def listGuard (pp : PaintProp) (i : ℕ) (w : Bool) : Bool :=
  match pp with
  | .list l =>
    match l.get? i with
    | some p => p.type = "SOLID" && !w
    | none => false
  | _ => false

/-- The guards of a merge reference on a resolved node, dispatching on the
reference's slot kind. -/
def slotGuard (node : Node) (ref : PaintRef) : Bool :=
  if ref.source = "fill" then listGuard node.fills ref.index node.writeFails
  else if ref.source = "stroke" then listGuard node.strokes ref.index node.writeFails
  else false

/-- `slotGuard` after resolving the node: the full success condition of a
single merge reference against a document. -/
def refSucceeds (doc : Doc) (ref : PaintRef) : Bool :=
  match doc.find? (fun n => n.id = ref.nodeId) with
  | none => false
  | some node => slotGuard node ref

/-- The references of the selected groups, in cluster / member / reference
order — the iteration order of `applyMerge`'s nested loops. -/
def allRefs (groups : List ColorGroup) : List PaintRef :=
  groups.flatMap (fun g => g.members.flatMap (fun m => m.nodes))

/-- `applyMerge`: fold the single-reference rewrite over all references of
all members of all selected groups, counting successful writes. -/
def applyMerge (doc : Doc) (groups : List ColorGroup) (targetHex : String) : Doc × ℕ :=
  groups.foldl (fun st g =>
    g.members.foldl (fun st m =>
      m.nodes.foldl (applyRef (hexToRgb targetHex)) st) st) (doc, 0)

-- ─── Session Controller (merge branch) ───────────────────────────────────────

/-- A `merge` request message. -/
structure MergeMsg where
  threshold : Option ℚ
  groupIndices : List ℤ
  targetHex : String
  styleName : Option String
deriving DecidableEq, Repr

/-- Response posted for a merge request. -/
inductive Response where
  | mergeDone (changed : ℕ) (styleCreated : Bool) (styleName : Option String)
  | error (message : String)
deriving DecidableEq, Repr

/-- JS array subscript `allGroups[i]` with an arbitrary integer index:
`undefined` outside `[0, length)`. -/
def jsGet (l : List ColorGroup) (i : ℤ) : Option ColorGroup :=
  if 0 ≤ i then l.get? i.toNat else none

/-- JS truthiness of the optional `msg.styleName`
(absent and `""` are both falsy). -/
def styleNameTruthy : Option String → Bool
  | none => false
  | some s => s ≠ ""

/-- The paint written by `style.paints = [{type: "SOLID", color: ...}]`. -/
def solidPaint (c : RGB) : Paint := ⟨"SOLID", none, none, none, c⟩

/-- The `msg.type === "merge"` branch of `figma.ui.onmessage`: re-scan,
re-cluster, select groups by index (`.map(i => allGroups[i]).filter(Boolean)`
drops out-of-range indices), apply the merge, optionally create one new
paint style, and post `merge-done`.  Returns the final document, the final
style list and the response. -/
def handleMerge (doc : Doc) (styles : List PaintStyle) (msg : MergeMsg) :
    Doc × List PaintStyle × Response :=
  let colorMap := scanColors doc
  let threshold := msg.threshold.getD 20
  let allGroups := groupSimilarColors (objectValues colorMap) threshold
  let selected := (msg.groupIndices.map (fun i => jsGet allGroups i)).filterMap id
  let res := applyMerge doc selected msg.targetHex
  if styleNameTruthy msg.styleName then
    (res.1,
      styles ++ [⟨msg.styleName.getD "", [solidPaint (hexToRgb msg.targetHex)]⟩],
      .mergeDone res.2 true msg.styleName)
  else
    (res.1, styles, .mergeDone res.2 false msg.styleName)

-- ─── Concrete fixtures used by closed theorems and witnesses ─────────────────

/-- C1 failing input, slot 0: an invisible solid paint (filtered out by the
scanner). -/
def c1Hidden : Paint := ⟨"SOLID", some false, none, none, ⟨1, 0, 0⟩⟩

/-- C1 failing input, slot 1: the visible solid paint the scanner records. -/
def c1Visible : Paint := ⟨"SOLID", none, none, none, ⟨0, 0, 1⟩⟩

/-- C1 failing input: a node whose fill list is `[c1Hidden, c1Visible]`. -/
def c1Node : Node := ⟨"n1", .list [c1Hidden, c1Visible], .absent, false⟩

/-- Scenario-D fixture: a single node with one red solid fill. -/
def d1Node : Node := ⟨"n1", .list [⟨"SOLID", none, none, none, ⟨1, 0, 0⟩⟩], .absent, false⟩

/-- C5 witness fixture: a solid paint with distinctive property values. -/
def c5Solid : Paint := ⟨"SOLID", some true, some (3/4), some "NORMAL", ⟨1, 0, 0⟩⟩

/-- C5 witness fixture: a two-slot fill list with distinctive paint fields. -/
def c5Fills : List Paint :=
  [⟨"GRADIENT_LINEAR", none, some (1/2), some "MULTIPLY", ⟨1, 1, 1⟩⟩, c5Solid]

/-- C5 witness fixture node. -/
def c5Node : Node := ⟨"n5", .list c5Fills, .mixed, false⟩

/-- Shape equality of paint properties: same constructor, and for lists
the same length with pointwise equal paint types.  The guards of a merge
reference only inspect this shape, and a color-only rewrite preserves it. -/
def sameShape : PaintProp → PaintProp → Prop
  | .absent, .absent => True
  | .mixed, .mixed => True
  | .list l1, .list l2 =>
    l1.length = l2.length ∧ ∀ j, (l1.get? j).map Paint.type = (l2.get? j).map Paint.type
  | _, _ => False

/-- One uppercased, zero-padded two-digit hex channel, as produced inside
`toHex` for a byte value. -/
def upHex2 (b : ℕ) : List Char :=
  (padStart2 (jsIntToString16 (b : ℤ))).map Char.toUpper

-- ─── Theorems ────────────────────────────────────────────────────────────────

/-- `jsRound` is the mathematical `⌊x + 1/2⌋` (ECMAScript `Math.round`). -/
theorem jsRound_eq_floor (q : ℚ) : jsRound q = ⌊q + 1/2⌋ := by
  have h := Rat.floor_def' (q + 1/2)
  rw [jsRound, h, ← Rat.floor_def]

theorem colorDistSq_nonneg (a b : RGBA) : 0 ≤ colorDistSq a b := by
  unfold colorDistSq
  have h1 := mul_self_nonneg ((a.r - b.r) * 255)
  have h2 := mul_self_nonneg ((a.g - b.g) * 255)
  have h3 := mul_self_nonneg ((a.b - b.b) * 255)
  linarith

/-- Fidelity of `distLE`: it decides exactly
`Real.sqrt (colorDistSq a b) ≤ t`, the comparison written in the source. -/
theorem distLE_iff_sqrt (a b : RGBA) (t : ℚ) :
    distLE a b t = true ↔ Real.sqrt ((colorDistSq a b : ℚ) : ℝ) ≤ (t : ℝ) := by
  rw [Real.sqrt_le_iff]
  unfold distLE
  simp only [Bool.and_eq_true, decide_eq_true_eq]
  constructor
  · rintro ⟨h1, h2⟩
    refine ⟨by exact_mod_cast h1, ?_⟩
    have h3 : ((colorDistSq a b : ℚ) : ℝ) ≤ ((t * t : ℚ) : ℝ) := by exact_mod_cast h2
    calc ((colorDistSq a b : ℚ) : ℝ) ≤ ((t * t : ℚ) : ℝ) := h3
      _ = (t : ℝ) ^ 2 := by push_cast; ring
  · rintro ⟨h1, h2⟩
    refine ⟨by exact_mod_cast h1, ?_⟩
    have h3 : ((colorDistSq a b : ℚ) : ℝ) ≤ ((t * t : ℚ) : ℝ) := by
      calc ((colorDistSq a b : ℚ) : ℝ) ≤ (t : ℝ) ^ 2 := h2
        _ = ((t * t : ℚ) : ℝ) := by push_cast; ring
    exact_mod_cast h3


/-- **C1** (code bug): the Scanner does NOT record the paint's position in
the node's original, unfiltered paint list.  On a fill list whose slot 0 is
an invisible solid and slot 1 a visible solid, the scanner extracts the
slot-1 paint but records `slotIndex = 0` — its position in the *filtered*
list (the `forEach` index runs over `extractPaints`' output).  The
downstream rewrite then recolors the wrong slot: `applyMerge` recolors the
invisible slot-0 paint and leaves the scanned slot-1 paint untouched. -/
theorem c1_slot_index_is_filtered_position :
    scanColors [c1Node]
        = [("0000FF", ⟨⟨0, 0, 1, 1⟩, "0000FF", [⟨"n1", "fill", 0⟩]⟩)]
      ∧ [c1Hidden, c1Visible].get? 1 = some c1Visible
      ∧ c1Visible.color = ⟨0, 0, 1⟩
      ∧ c1Hidden.color ≠ ⟨0, 0, 1⟩
      ∧ (applyRef (hexToRgb "00FF00") ([c1Node], 0) ⟨"n1", "fill", 0⟩).1
          = [⟨"n1", .list [⟨"SOLID", some false, none, none, ⟨0, 1, 0⟩⟩, c1Visible],
              .absent, false⟩] := by
  decide

/-- **C2** (code bug): `hexToRgb` never raises an `InvalidColorKey` error —
it is a total function.  On the malformed key `"ZZZZZZ"` it silently
returns black, and on the six-hex-digit-violating `"FFF"` it silently
returns a color as well, instead of failing. -/
theorem c2_hexToRgb_silently_accepts_malformed :
    hexToRgb "ZZZZZZ" = ⟨0, 0, 0⟩ ∧ hexToRgb "FFF" = ⟨0, 15/255, 1⟩ := by
  decide

/-- Restricting a `filterMap` to the elements where the function fires
leaves its output unchanged. -/
theorem filterMap_filter_isSome {α β : Type} (g : α → Option β) (xs : List α) :
    ((xs.filter (fun a => (g a).isSome)).map g).filterMap id
      = (xs.map g).filterMap id := by
  induction xs with
  | nil => rfl
  | cons a l ih =>
    cases h : g a with
    | none => simp [List.filter_cons, h, ih]
    | some b => simp [List.filter_cons, h, ih]

/-- **C7**: out-of-range group indices are silently dropped — a merge
message behaves exactly like the same message with its out-of-range indices
removed — and, in particular, `groupIndices = [5]` against a document with
a single cluster yields `merge-done` with `changed = 0` and
`styleCreated = false`. -/
theorem c7_out_of_range_indices_dropped :
    (∀ (doc : Doc) (styles : List PaintStyle) (thr : Option ℚ) (tgt : String)
        (name : Option String) (xs : List ℤ),
      handleMerge doc styles ⟨thr, xs, tgt, name⟩
        = handleMerge doc styles
            ⟨thr,
              xs.filter (fun i =>
                (jsGet (groupSimilarColors (objectValues (scanColors doc))
                  (thr.getD 20)) i).isSome),
              tgt, name⟩)
    ∧ handleMerge [d1Node] [] ⟨none, [5], "00FF00", none⟩
        = ([d1Node], [], .mergeDone 0 false none) := by
  constructor
  · intro doc styles thr tgt name xs
    simp only [handleMerge]
    rw [filterMap_filter_isSome]
  · decide

/-- **C6 counterexample**: a merge message that *does* supply a `styleName`
— the empty string — yet produces `styleCreated = false` and creates no
style: JS truthiness of `msg.styleName` treats `""` as absent. -/
theorem c6_empty_styleName_no_style :
    handleMerge [] [] ⟨none, [], "00FF00", some ""⟩
      = ([], [], .mergeDone 0 false (some "")) := by
  decide

/-- **C6 (amended)**: for every merge message supplying a *non-empty*
`styleName`, exactly one new paint style — holding a single solid paint set
to the target color — is appended to the style list, unconditionally
(independent of the document and hence of whether any slot rewrite
succeeded, including `changed = 0`) and never updating an existing style of
the same name; the response then reports `styleCreated = true`. -/
theorem c6_nonempty_styleName_creates_style
    (doc : Doc) (styles : List PaintStyle) (msg : MergeMsg) (s : String)
    (hsupp : msg.styleName = some s) (hne : s ≠ "") :
    (handleMerge doc styles msg).2.1
        = styles ++ [⟨s, [solidPaint (hexToRgb msg.targetHex)]⟩]
      ∧ ∃ n, (handleMerge doc styles msg).2.2 = Response.mergeDone n true (some s) := by
  have htr : styleNameTruthy msg.styleName = true := by
    rw [hsupp]
    simp [styleNameTruthy, hne]
  refine ⟨?_, ⟨(applyMerge doc
      ((msg.groupIndices.map (fun i => jsGet (groupSimilarColors
        (objectValues (scanColors doc)) (msg.threshold.getD 20)) i)).filterMap id)
      msg.targetHex).2, ?_⟩⟩ <;>
    simp [handleMerge, htr, hsupp, styleNameTruthy, hne]

/-- **C6 witness**: concrete instance of the amended claim, on the empty
document (so `changed = 0`). -/
theorem c6_witness :
    (handleMerge [] [] ⟨none, [], "00FF00", some "Primary"⟩).2.1
        = [] ++ [⟨"Primary", [solidPaint (hexToRgb "00FF00")]⟩]
      ∧ ∃ n, (handleMerge [] [] ⟨none, [], "00FF00", some "Primary"⟩).2.2
          = Response.mergeDone n true (some "Primary") :=
  c6_nonempty_styleName_creates_style [] [] ⟨none, [], "00FF00", some "Primary"⟩
    "Primary" rfl (by decide)

/-- `find?` on an updated document, looked up at the updated id: returns
the image of the node that was found before, for an id-preserving update. -/
theorem find?_updateFirst_self (doc : Doc) (id : String) (f : Node → Node)
    (hid : ∀ n, (f n).id = n.id) :
    (updateFirst doc id f).find? (fun n => n.id = id)
      = (doc.find? (fun n => n.id = id)).map f := by
  induction doc with
  | nil => rfl
  | cons n ns ih =>
    by_cases h : n.id = id
    · simp [updateFirst, h, List.find?_cons, hid]
    · simp [updateFirst, h, List.find?_cons, ih]

/-- `find?` at any other id is unaffected by an id-preserving update. -/
theorem find?_updateFirst_other (doc : Doc) (id x : String) (f : Node → Node)
    (hx : x ≠ id) (hid : ∀ n, (f n).id = n.id) :
    (updateFirst doc id f).find? (fun n => n.id = x)
      = doc.find? (fun n => n.id = x) := by
  have hix : ¬(id = x) := fun hh => hx hh.symm
  induction doc with
  | nil => rfl
  | cons n ns ih =>
    by_cases h : n.id = id
    · have hnx : ¬(n.id = x) := fun hh => hx (hh ▸ h.symm ▸ rfl)
      have hfx : ¬((f n).id = x) := by rw [hid]; exact hnx
      simp [updateFirst, h, List.find?_cons, hnx, hfx, hix, hx]
    · by_cases h2 : n.id = x
      · simp [updateFirst, h, List.find?_cons, h2, hix, hx]
      · simp [updateFirst, h, List.find?_cons, h2, ih, hix, hx]

/-- **C5**: when the Merge Applier rewrites a slot, only that slot's color
field changes: the rewritten list keeps its length, every other entry is
unchanged, the target slot keeps its type, visibility, opacity and blend
mode and receives exactly the target color, and the node's other paint
list is untouched. -/
theorem c5_rewrite_touches_only_target_color
    (t : RGB) (doc : Doc) (c : ℕ) (ref : PaintRef) (node : Node) (l : List Paint) (p : Paint)
    (hfind : doc.find? (fun n => n.id = ref.nodeId) = some node)
    (hw : node.writeFails = false)
    (hsrc : (ref.source = "fill" ∧ node.fills = .list l)
          ∨ (ref.source = "stroke" ∧ node.strokes = .list l))
    (hslot : l.get? ref.index = some p)
    (htype : p.type = "SOLID") :
    ∃ node' l',
      (applyRef t (doc, c) ref).1.find? (fun n => n.id = ref.nodeId) = some node'
      ∧ (if ref.source = "fill"
          then node'.fills = .list l' ∧ node'.strokes = node.strokes
          else node'.strokes = .list l' ∧ node'.fills = node.fills)
      ∧ l'.length = l.length
      ∧ (∀ j, j ≠ ref.index → l'.get? j = l.get? j)
      ∧ ∃ p', l'.get? ref.index = some p'
          ∧ p'.type = p.type ∧ p'.visible = p.visible ∧ p'.opacity = p.opacity
          ∧ p'.blendMode = p.blendMode ∧ p'.color = t := by
  have hslot2 : l[ref.index]? = some p := by
    rw [← List.get?_eq_getElem?]
    exact hslot
  rcases hsrc with ⟨hsf, hl⟩ | ⟨hss, hl⟩
  · have happ : applyRef t (doc, c) ref
        = (updateFirst doc ref.nodeId
            (fun n => { n with fills := .list (l.set ref.index { p with color := t }) }),
          c + 1) := by
      simp [applyRef, hfind, hsf, hl, hslot2, htype, hw]
    refine ⟨{ node with fills := .list (l.set ref.index { p with color := t }) },
      l.set ref.index { p with color := t }, ?_, ?_, ?_, ?_, ?_⟩
    · rw [happ]
      have := find?_updateFirst_self doc ref.nodeId
        (fun n => { n with fills := .list (l.set ref.index { p with color := t }) })
        (fun n => rfl)
      simp only []
      rw [this, hfind]
      rfl
    · simp [hsf]
    · exact List.length_set l ref.index _
    · intro j hj
      exact List.get?_set_ne _ l (fun hh => hj hh.symm)
    · refine ⟨{ p with color := t }, ?_, rfl, rfl, rfl, rfl, rfl⟩
      rw [List.get?_set_eq, hslot]
      rfl
  · have hsnf : ¬(ref.source = "fill") := by
      rw [hss]
      decide
    have happ : applyRef t (doc, c) ref
        = (updateFirst doc ref.nodeId
            (fun n => { n with strokes := .list (l.set ref.index { p with color := t }) }),
          c + 1) := by
      simp [applyRef, hfind, hsnf, hss, hl, hslot2, htype, hw]
    refine ⟨{ node with strokes := .list (l.set ref.index { p with color := t }) },
      l.set ref.index { p with color := t }, ?_, ?_, ?_, ?_, ?_⟩
    · rw [happ]
      have := find?_updateFirst_self doc ref.nodeId
        (fun n => { n with strokes := .list (l.set ref.index { p with color := t }) })
        (fun n => rfl)
      simp only []
      rw [this, hfind]
      rfl
    · simp [hsnf]
    · exact List.length_set l ref.index _
    · intro j hj
      exact List.get?_set_ne _ l (fun hh => hj hh.symm)
    · refine ⟨{ p with color := t }, ?_, rfl, rfl, rfl, rfl, rfl⟩
      rw [List.get?_set_eq, hslot]
      rfl

/-- **C5 witness**: the theorem applied to a concrete two-slot fill list,
rewriting slot 1 to green. -/
theorem c5_witness :
    ∃ node' l',
      (applyRef ⟨0, 1, 0⟩ ([c5Node], 0) ⟨"n5", "fill", 1⟩).1.find?
          (fun n => n.id = "n5") = some node'
      ∧ (if ("fill" : String) = "fill"
          then node'.fills = .list l' ∧ node'.strokes = c5Node.strokes
          else node'.strokes = .list l' ∧ node'.fills = c5Node.fills)
      ∧ l'.length = c5Fills.length
      ∧ (∀ j, j ≠ 1 → l'.get? j = c5Fills.get? j)
      ∧ ∃ p', l'.get? 1 = some p'
          ∧ p'.type = c5Solid.type ∧ p'.visible = c5Solid.visible
          ∧ p'.opacity = c5Solid.opacity ∧ p'.blendMode = c5Solid.blendMode
          ∧ p'.color = ⟨0, 1, 0⟩ :=
  c5_rewrite_touches_only_target_color ⟨0, 1, 0⟩ [c5Node] 0 ⟨"n5", "fill", 1⟩ c5Node
    c5Fills c5Solid rfl rfl (Or.inl ⟨rfl, rfl⟩) rfl rfl

/-- A color-only slot rewrite does not change a paint property's shape. -/
theorem sameShape_set_color (l : List Paint) (i : ℕ) (p : Paint) (t : RGB)
    (hslot : l.get? i = some p) :
    sameShape (.list (l.set i { p with color := t })) (.list l) := by
  refine ⟨List.length_set l i _, fun j => ?_⟩
  by_cases hj : i = j
  · subst hj
    rw [List.get?_set_eq, hslot]
    rfl
  · rw [List.get?_set_ne _ _ hj]

/-- `listGuard` only depends on the shape of the paint property. -/
theorem listGuard_congr (p1 p2 : PaintProp) (i : ℕ) (w : Bool)
    (h : sameShape p1 p2) : listGuard p1 i w = listGuard p2 i w := by
  cases p1 with
  | absent =>
    cases p2 with
    | absent => rfl
    | mixed => exact absurd h (by simp [sameShape])
    | list l2 => exact absurd h (by simp [sameShape])
  | mixed =>
    cases p2 with
    | absent => exact absurd h (by simp [sameShape])
    | mixed => rfl
    | list l2 => exact absurd h (by simp [sameShape])
  | list l1 =>
    cases p2 with
    | absent => exact absurd h (by simp [sameShape])
    | mixed => exact absurd h (by simp [sameShape])
    | list l2 =>
      obtain ⟨-, hty⟩ := h
      have hj := hty i
      cases h1 : l1.get? i with
      | none =>
        cases h2 : l2.get? i with
        | none => simp only [listGuard, h1, h2]
        | some p2 =>
          rw [h1, h2] at hj
          exact absurd hj (by simp)
      | some p1 =>
        cases h2 : l2.get? i with
        | none =>
          rw [h1, h2] at hj
          exact absurd hj (by simp)
        | some p2 =>
          rw [h1, h2] at hj
          simp only [Option.map_some'] at hj
          have ht2 : p1.type = p2.type := by injection hj
          simp only [listGuard, h1, h2, ht2]

/-- `slotGuard` only depends on the node data preserved by a merge write. -/
theorem slotGuard_congr (n1 n2 : Node) (r : PaintRef)
    (hw : n1.writeFails = n2.writeFails)
    (hfill : sameShape n1.fills n2.fills)
    (hstroke : sameShape n1.strokes n2.strokes) :
    slotGuard n1 r = slotGuard n2 r := by
  unfold slotGuard
  rw [hw, listGuard_congr n1.fills n2.fills r.index n2.writeFails hfill,
    listGuard_congr n1.strokes n2.strokes r.index n2.writeFails hstroke]

/-- Case analysis of one `applyRef` step: a failing reference leaves the
state unchanged; a succeeding one bumps the count by one and performs an
id-, writeFails- and shape-preserving update of the resolved node. -/
theorem applyRef_step (t : RGB) (doc : Doc) (c : ℕ) (r : PaintRef) :
    (refSucceeds doc r = false ∧ applyRef t (doc, c) r = (doc, c))
    ∨ (refSucceeds doc r = true ∧ ∃ (node : Node) (f : Node → Node),
        doc.find? (fun n => n.id = r.nodeId) = some node
        ∧ applyRef t (doc, c) r = (updateFirst doc r.nodeId f, c + 1)
        ∧ (∀ n, (f n).id = n.id)
        ∧ (f node).writeFails = node.writeFails
        ∧ sameShape (f node).fills node.fills
        ∧ sameShape (f node).strokes node.strokes) := by
  cases hfd : doc.find? (fun n => n.id = r.nodeId) with
  | none =>
    left
    constructor
    · simp [refSucceeds, hfd]
    · simp [applyRef, hfd]
  | some node =>
    by_cases hs : r.source = "fill"
    · cases hf : node.fills with
      | absent =>
        left
        constructor
        · simp [refSucceeds, hfd, slotGuard, hs, listGuard, hf]
        · simp [applyRef, hfd, hs, hf]
      | mixed =>
        left
        constructor
        · simp [refSucceeds, hfd, slotGuard, hs, listGuard, hf]
        · simp [applyRef, hfd, hs, hf]
      | list l =>
        cases hg : l.get? r.index with
        | none =>
          have hg2 : l[r.index]? = none := by
            rw [← List.get?_eq_getElem?]
            exact hg
          left
          constructor
          · simp [refSucceeds, hfd, slotGuard, hs, listGuard, hf, hg2]
          · simp [applyRef, hfd, hs, hf, hg2]
        | some p =>
          have hg2 : l[r.index]? = some p := by
            rw [← List.get?_eq_getElem?]
            exact hg
          by_cases htp : p.type = "SOLID"
          · by_cases hwf : node.writeFails
            · left
              constructor
              · simp [refSucceeds, hfd, slotGuard, hs, listGuard, hf, hg2, hwf]
              · simp [applyRef, hfd, hs, hf, hg2, htp, hwf]
            · right
              constructor
              · simp [refSucceeds, hfd, slotGuard, hs, listGuard, hf, hg2, htp, hwf]
              refine ⟨node,
                (fun n => { n with fills := .list (l.set r.index { p with color := t }) }),
                rfl, ?_, fun n => rfl, rfl, ?_, ?_⟩
              · simp [applyRef, hfd, hs, hf, hg2, htp, hwf]
              · simp only []
                rw [hf]
                exact sameShape_set_color l r.index p t hg
              · simp only []
                cases node.strokes with
                | absent => trivial
                | mixed => trivial
                | list l2 => exact ⟨rfl, fun j => rfl⟩
          · left
            constructor
            · simp [refSucceeds, hfd, slotGuard, hs, listGuard, hf, hg2, htp]
            · simp [applyRef, hfd, hs, hf, hg2, htp]
    · by_cases hs2 : r.source = "stroke"
      · cases hf : node.strokes with
        | absent =>
          left
          constructor
          · simp [refSucceeds, hfd, slotGuard, hs, hs2, listGuard, hf]
          · simp [applyRef, hfd, hs, hs2, hf]
        | mixed =>
          left
          constructor
          · simp [refSucceeds, hfd, slotGuard, hs, hs2, listGuard, hf]
          · simp [applyRef, hfd, hs, hs2, hf]
        | list l =>
          cases hg : l.get? r.index with
          | none =>
            have hg2 : l[r.index]? = none := by
              rw [← List.get?_eq_getElem?]
              exact hg
            left
            constructor
            · simp [refSucceeds, hfd, slotGuard, hs, hs2, listGuard, hf, hg2]
            · simp [applyRef, hfd, hs, hs2, hf, hg2]
          | some p =>
            have hg2 : l[r.index]? = some p := by
              rw [← List.get?_eq_getElem?]
              exact hg
            by_cases htp : p.type = "SOLID"
            · by_cases hwf : node.writeFails
              · left
                constructor
                · simp [refSucceeds, hfd, slotGuard, hs, hs2, listGuard, hf, hg2, hwf]
                · simp [applyRef, hfd, hs, hs2, hf, hg2, htp, hwf]
              · right
                constructor
                · simp [refSucceeds, hfd, slotGuard, hs, hs2, listGuard, hf, hg2, htp, hwf]
                refine ⟨node,
                  (fun n => { n with strokes := .list (l.set r.index { p with color := t }) }),
                  rfl, ?_, fun n => rfl, rfl, ?_, ?_⟩
                · simp [applyRef, hfd, hs, hs2, hf, hg2, htp, hwf]
                · simp only []
                  cases node.fills with
                  | absent => trivial
                  | mixed => trivial
                  | list l2 => exact ⟨rfl, fun j => rfl⟩
                · simp only []
                  rw [hf]
                  exact sameShape_set_color l r.index p t hg
            · left
              constructor
              · simp [refSucceeds, hfd, slotGuard, hs, hs2, listGuard, hf, hg2, htp]
              · simp [applyRef, hfd, hs, hs2, hf, hg2, htp]
      · left
        constructor
        · simp [refSucceeds, hfd, slotGuard, hs, hs2]
        · simp [applyRef, hfd, hs, hs2]

/-- One `applyRef` step does not change which references succeed. -/
theorem refSucceeds_applyRef (t : RGB) (doc : Doc) (c : ℕ) (r r' : PaintRef) :
    refSucceeds (applyRef t (doc, c) r).1 r' = refSucceeds doc r' := by
  rcases applyRef_step t doc c r with ⟨-, heq⟩ | ⟨-, node, f, hfind, heq, hid, hw, hfill, hstroke⟩
  · rw [heq]
  · rw [heq]
    unfold refSucceeds
    by_cases hx : r'.nodeId = r.nodeId
    · rw [hx, find?_updateFirst_self doc r.nodeId f hid, hfind]
      simp only [Option.map_some']
      exact slotGuard_congr (f node) node r' hw hfill hstroke
    · rw [find?_updateFirst_other doc r.nodeId r'.nodeId f hx hid]

/-- The changed count of a reference fold equals the initial count plus the
number of references succeeding against the starting document. -/
theorem foldl_applyRef_count (t : RGB) (refs : List PaintRef) :
    ∀ (doc : Doc) (c : ℕ),
      (refs.foldl (applyRef t) (doc, c)).2
        = c + refs.countP (fun r => refSucceeds doc r) := by
  induction refs with
  | nil =>
    intro doc c
    simp
  | cons r rs ih =>
    intro doc c
    rw [List.foldl_cons, List.countP_cons]
    have hcnt : rs.countP (fun x => refSucceeds (applyRef t (doc, c) r).1 x)
        = rs.countP (fun x => refSucceeds doc x) :=
      List.countP_congr (fun x _ => by rw [refSucceeds_applyRef t doc c r x])
    have h2 : (rs.foldl (applyRef t) (applyRef t (doc, c) r)).2
        = (applyRef t (doc, c) r).2
          + rs.countP (fun x => refSucceeds (applyRef t (doc, c) r).1 x) := by
      have h3 := ih (applyRef t (doc, c) r).1 (applyRef t (doc, c) r).2
      simpa using h3
    rw [h2, hcnt]
    rcases applyRef_step t doc c r with ⟨hf, heq⟩ | ⟨hsu, -⟩
    · rw [heq, hf]
      simp
    · rw [hsu]
      have : (applyRef t (doc, c) r).2 = c + 1 := by
        rcases applyRef_step t doc c r with ⟨hf2, -⟩ | ⟨-, node, f, -, heq2, -⟩
        · rw [hsu] at hf2
          exact absurd hf2 (by simp)
        · rw [heq2]
      rw [this]
      simp
      omega

/-- A fold over a flattened list is the nested fold. -/
theorem foldl_flatMap {α β σ : Type} (f : σ → β → σ) (g : α → List β)
    (l : List α) (s : σ) :
    (l.flatMap g).foldl f s = l.foldl (fun s a => (g a).foldl f s) s := by
  induction l generalizing s with
  | nil => rfl
  | cons a tl ih => rw [List.flatMap_cons, List.foldl_append, List.foldl_cons, ih]

/-- `applyMerge` is the flat fold over the references of the selected
groups in iteration order. -/
theorem applyMerge_eq_foldl (doc : Doc) (groups : List ColorGroup) (tHex : String) :
    applyMerge doc groups tHex
      = (allRefs groups).foldl (applyRef (hexToRgb tHex)) (doc, 0) := by
  unfold applyMerge allRefs
  rw [foldl_flatMap]
  congr 1
  funext s g
  rw [foldl_flatMap]

/-- **C3**: the merge batch tolerates per-reference failures: the returned
changed count equals exactly the number of references whose rewrite
succeeds against the starting document (node resolvable, slot still a
visible paint list holding a SOLID paint, write does not throw) — failed
references are excluded while every reference of the batch is still
processed — and a failing reference leaves the state exactly unchanged, so
the batch never aborts. -/
theorem c3_per_reference_failures_skipped :
    (∀ (doc : Doc) (groups : List ColorGroup) (targetHex : String),
      (applyMerge doc groups targetHex).2
        = (allRefs groups).countP (fun r => refSucceeds doc r))
    ∧ (∀ (t : RGB) (doc : Doc) (c : ℕ) (r : PaintRef),
        refSucceeds doc r = false → applyRef t (doc, c) r = (doc, c)) := by
  constructor
  · intro doc groups targetHex
    rw [applyMerge_eq_foldl, foldl_applyRef_count]
    simp
  · intro t doc c r hf
    rcases applyRef_step t doc c r with ⟨-, heq⟩ | ⟨hsu, -⟩
    · exact heq
    · rw [hf] at hsu
      exact absurd hsu (by simp)

/-- **C3 witness**: a locked node (paint-list write throws): the reference
fails, and the step leaves both the document and the count unchanged. -/
theorem c3_witness :
    applyRef (hexToRgb "00FF00")
        ([⟨"n9", .list [⟨"SOLID", none, none, none, ⟨1, 0, 0⟩⟩], .absent, true⟩], 3)
        ⟨"n9", "fill", 0⟩
      = ([⟨"n9", .list [⟨"SOLID", none, none, none, ⟨1, 0, 0⟩⟩], .absent, true⟩], 3) :=
  c3_per_reference_failures_skipped.2 (hexToRgb "00FF00")
    [⟨"n9", .list [⟨"SOLID", none, none, none, ⟨1, 0, 0⟩⟩], .absent, true⟩] 3
    ⟨"n9", "fill", 0⟩ (by decide)

/-- Exact description of the inner loop on later entries with distinct hex
keys: it collects precisely the not-yet-assigned entries within threshold,
in order, and pushes exactly their hexes onto the assigned set. -/
theorem innerLoop_spec (t : ℚ) (rep : ColorEntry) :
    ∀ (xs : List ColorEntry) (asg : List String),
      ((xs.map (fun e => e.hex)).Nodup) →
      innerLoop t rep xs asg
        = (xs.filter (fun x => !asg.contains x.hex && distLE rep.color x.color t),
           ((xs.filter (fun x => !asg.contains x.hex && distLE rep.color x.color t)).map
               (fun e => e.hex)).reverse ++ asg) := by
  intro xs
  induction xs with
  | nil =>
    intro asg _
    rfl
  | cons x xs ih =>
    intro asg hnd
    rw [List.map_cons, List.nodup_cons] at hnd
    obtain ⟨hx, hnd2⟩ := hnd
    have hcong : xs.filter
          (fun y => !((x.hex :: asg).contains y.hex) && distLE rep.color y.color t)
        = xs.filter (fun y => !(asg.contains y.hex) && distLE rep.color y.color t) := by
      apply List.filter_congr
      intro y hy
      have hyx : ¬(y.hex = x.hex) :=
        fun hh => hx (hh ▸ List.mem_map_of_mem (fun e => e.hex) hy)
      simp [List.contains, List.elem_eq_mem, List.mem_cons, hyx]
    by_cases hcm : x.hex ∈ asg
    · have h1 : innerLoop t rep (x :: xs) asg = innerLoop t rep xs asg := by
        simp [innerLoop, List.contains, List.elem_eq_mem, hcm]
      rw [h1, ih asg hnd2, List.filter_cons]
      simp [List.contains, List.elem_eq_mem, hcm]
    · by_cases hd : distLE rep.color x.color t = true
      · have h1 : innerLoop t rep (x :: xs) asg
            = (x :: (innerLoop t rep xs (x.hex :: asg)).1,
               (innerLoop t rep xs (x.hex :: asg)).2) := by
          simp [innerLoop, List.contains, List.elem_eq_mem, hcm, hd]
        rw [h1, ih (x.hex :: asg) hnd2, hcong, List.filter_cons]
        simp [List.contains, List.elem_eq_mem, hcm, hd, List.reverse_cons,
          List.append_assoc]
      · have h1 : innerLoop t rep (x :: xs) asg = innerLoop t rep xs asg := by
          simp [innerLoop, List.contains, List.elem_eq_mem, hcm, hd]
        rw [h1, ih asg hnd2, List.filter_cons]
        simp [List.contains, List.elem_eq_mem, hcm, hd]

/-- Flattened members of the outer loop: a permutation of the entries not
yet assigned, for an entry list with distinct hex keys. -/
theorem outerLoop_members_perm (t : ℚ) :
    ∀ (l : List ColorEntry) (asg : List String),
      ((l.map (fun e => e.hex)).Nodup) →
      ((outerLoop t l asg).flatMap (fun g => g.members)).Perm
        (l.filter (fun e => !asg.contains e.hex)) := by
  intro l
  induction l with
  | nil =>
    intro asg _
    simp [outerLoop]
  | cons e rest ih =>
    intro asg hnd
    rw [List.map_cons, List.nodup_cons] at hnd
    obtain ⟨hx, hnd2⟩ := hnd
    by_cases hcm : e.hex ∈ asg
    · have h1 : outerLoop t (e :: rest) asg = outerLoop t rest asg := by
        simp [outerLoop, List.contains, List.elem_eq_mem, hcm]
      rw [h1, List.filter_cons]
      have h2 : (!asg.contains e.hex) = false := by
        simp [List.contains, List.elem_eq_mem, hcm]
      rw [h2]
      simpa using ih asg hnd2
    · have h1 : outerLoop t (e :: rest) asg
          = ⟨e, e :: (innerLoop t e rest (e.hex :: asg)).1⟩
              :: outerLoop t rest (innerLoop t e rest (e.hex :: asg)).2 := by
        simp [outerLoop, List.contains, List.elem_eq_mem, hcm]
      have hspec := innerLoop_spec t e rest (e.hex :: asg) hnd2
      have hcong : rest.filter
            (fun y => !((e.hex :: asg).contains y.hex) && distLE e.color y.color t)
          = rest.filter (fun y => !(asg.contains y.hex) && distLE e.color y.color t) := by
        apply List.filter_congr
        intro y hy
        have hyx : ¬(y.hex = e.hex) :=
          fun hh => hx (hh ▸ List.mem_map_of_mem (fun z => z.hex) hy)
        simp [List.contains, List.elem_eq_mem, List.mem_cons, hyx]
      rw [hcong] at hspec
      set ms := rest.filter (fun y => !(asg.contains y.hex) && distLE e.color y.color t)
        with hms
      have hms1 : (innerLoop t e rest (e.hex :: asg)).1 = ms := by
        rw [hspec]
      have hasg2 : (innerLoop t e rest (e.hex :: asg)).2
          = (ms.map (fun z => z.hex)).reverse ++ (e.hex :: asg) := by
        rw [hspec]
      have hrest := ih ((ms.map (fun z => z.hex)).reverse ++ (e.hex :: asg)) hnd2
      have hfcong : rest.filter
            (fun y => !(((ms.map (fun z => z.hex)).reverse ++ (e.hex :: asg)).contains y.hex))
          = rest.filter
            (fun y => !(asg.contains y.hex) && !(distLE e.color y.color t)) := by
        apply List.filter_congr
        intro y hy
        have hyx : ¬(y.hex = e.hex) :=
          fun hh => hx (hh ▸ List.mem_map_of_mem (fun z => z.hex) hy)
        have hinj : y.hex ∈ ms.map (fun z => z.hex) ↔ y ∈ ms := by
          constructor
          · intro hmem
            obtain ⟨z, hz, hzy⟩ := List.mem_map.mp hmem
            have hzrest : z ∈ rest := (List.mem_filter.mp (hms ▸ hz)).1
            exact (List.inj_on_of_nodup_map hnd2 hzrest hy hzy) ▸ hz
          · intro hmem
            exact List.mem_map_of_mem (fun z => z.hex) hmem
        have hymem : y ∈ ms ↔ (¬(y.hex ∈ asg) ∧ distLE e.color y.color t = true) := by
          rw [hms, List.mem_filter]
          simp [hy, List.contains, List.elem_eq_mem]
        rw [Bool.eq_iff_iff]
        simp only [Bool.not_eq_true', Bool.and_eq_true, List.contains, List.elem_eq_mem,
          decide_eq_false_iff_not, List.mem_append, List.mem_reverse, List.mem_cons,
          hinj, hymem]
        constructor
        · intro hh
          push_neg at hh
          obtain ⟨hnm, -, hna⟩ := hh
          refine ⟨hna, ?_⟩
          cases hdl : distLE e.color y.color t with
          | false => rfl
          | true => exact absurd hdl (hnm hna)
        · rintro ⟨hna, hnd3⟩
          push_neg
          refine ⟨fun _ hdl => ?_, hyx, hna⟩
          rw [hdl] at hnd3
          exact Bool.noConfusion hnd3
      rw [h1, List.flatMap_cons, hms1, hasg2]
      have hrest2 := hfcong ▸ hrest
      have hstep1 : ((⟨e, e :: ms⟩ : ColorGroup).members
            ++ (outerLoop t rest
                ((ms.map (fun z => z.hex)).reverse ++ (e.hex :: asg))).flatMap
                  (fun g => g.members))
          = e :: (ms ++ (outerLoop t rest
              ((ms.map (fun z => z.hex)).reverse ++ (e.hex :: asg))).flatMap
                (fun g => g.members)) := by
        simp
      rw [hstep1]
      have hstep2 : (e :: (ms ++ (outerLoop t rest
            ((ms.map (fun z => z.hex)).reverse ++ (e.hex :: asg))).flatMap
              (fun g => g.members))).Perm
          (e :: (ms ++ rest.filter
            (fun y => !(asg.contains y.hex) && !(distLE e.color y.color t)))) :=
        (hrest2.append_left ms).cons e
      refine hstep2.trans ?_
      have hpart := List.filter_append_perm
        (fun y => distLE e.color y.color t)
        (rest.filter (fun y => !(asg.contains y.hex)))
      rw [List.filter_filter, List.filter_filter] at hpart
      have e1 : rest.filter
            (fun a => distLE e.color a.color t && !(asg.contains a.hex))
          = rest.filter (fun a => !(asg.contains a.hex) && distLE e.color a.color t) := by
        apply List.filter_congr
        intro y _
        exact Bool.and_comm _ _
      have e2 : rest.filter
            (fun a => !(distLE e.color a.color t) && !(asg.contains a.hex))
          = rest.filter
            (fun a => !(asg.contains a.hex) && !(distLE e.color a.color t)) := by
        apply List.filter_congr
        intro y _
        exact Bool.and_comm _ _
      rw [e1, e2] at hpart
      rw [← hms] at hpart
      have hfin : ((e :: rest).filter (fun y => !(asg.contains y.hex)))
          = e :: rest.filter (fun y => !(asg.contains y.hex)) := by
        rw [List.filter_cons]
        simp [List.contains, List.elem_eq_mem, hcm]
      rw [hfin]
      exact hpart.cons e

/-- Stable insertion permutes consing. -/
theorem insertByCountDesc_perm (x : ColorGroup) (l : List ColorGroup) :
    (insertByCountDesc x l).Perm (x :: l) := by
  induction l with
  | nil => exact List.Perm.refl _
  | cons y ys ih =>
    by_cases h : totalCount y ≤ totalCount x
    · have h1 : insertByCountDesc x (y :: ys) = x :: y :: ys := by
        simp [insertByCountDesc, h]
      rw [h1]
    · have h1 : insertByCountDesc x (y :: ys) = y :: insertByCountDesc x ys := by
        simp [insertByCountDesc, h]
      rw [h1]
      exact (ih.cons y).trans (List.Perm.swap x y ys)

/-- The sort is a permutation of its input. -/
theorem sortByCountDesc_perm (l : List ColorGroup) : (sortByCountDesc l).Perm l := by
  induction l with
  | nil => exact List.Perm.refl _
  | cons x xs ih =>
    have h1 : sortByCountDesc (x :: xs) = insertByCountDesc x (sortByCountDesc xs) := rfl
    rw [h1]
    exact (insertByCountDesc_perm x (sortByCountDesc xs)).trans (ih.cons x)

theorem mem_insertByCountDesc {y x : ColorGroup} {l : List ColorGroup} :
    y ∈ insertByCountDesc x l ↔ y = x ∨ y ∈ l := by
  rw [(insertByCountDesc_perm x l).mem_iff]
  simp [List.mem_cons]

/-- Insertion into a descending-sorted list keeps it sorted. -/
theorem sorted_insertByCountDesc (x : ColorGroup) (l : List ColorGroup)
    (h : l.Sorted (fun a b => totalCount b ≤ totalCount a)) :
    (insertByCountDesc x l).Sorted (fun a b => totalCount b ≤ totalCount a) := by
  induction l with
  | nil => simp [insertByCountDesc]
  | cons y ys ih =>
    rw [List.sorted_cons] at h
    obtain ⟨hy, hys⟩ := h
    by_cases hc : totalCount y ≤ totalCount x
    · have h1 : insertByCountDesc x (y :: ys) = x :: y :: ys := by
        simp [insertByCountDesc, hc]
      rw [h1, List.sorted_cons]
      refine ⟨?_, List.sorted_cons.mpr ⟨hy, hys⟩⟩
      intro b hb
      rcases List.mem_cons.mp hb with rfl | hb2
      · exact hc
      · exact le_trans (hy b hb2) hc
    · have h1 : insertByCountDesc x (y :: ys) = y :: insertByCountDesc x ys := by
        simp [insertByCountDesc, hc]
      rw [h1, List.sorted_cons]
      refine ⟨?_, ih hys⟩
      intro b hb
      rcases mem_insertByCountDesc.mp hb with rfl | hb2
      · exact le_of_lt (lt_of_not_le hc)
      · exact hy b hb2

/-- The sort output is sorted by descending `totalCount`. -/
theorem sortByCountDesc_sorted (l : List ColorGroup) :
    (sortByCountDesc l).Sorted (fun a b => totalCount b ≤ totalCount a) := by
  induction l with
  | nil => simp [sortByCountDesc]
  | cons x xs ih => exact sorted_insertByCountDesc x (sortByCountDesc xs) ih

/-- Stability of insertion: entries skipped over have strictly larger
counts, so the equal-count subsequence is only extended at its front. -/
theorem filter_insertByCountDesc (x : ColorGroup) (l : List ColorGroup) (c : ℕ) :
    (insertByCountDesc x l).filter (fun g => totalCount g = c)
      = if totalCount x = c
          then x :: l.filter (fun g => totalCount g = c)
          else l.filter (fun g => totalCount g = c) := by
  induction l with
  | nil =>
    by_cases hx : totalCount x = c
    · simp [insertByCountDesc, List.filter_cons, hx]
    · simp [insertByCountDesc, List.filter_cons, hx]
  | cons y ys ih =>
    by_cases hc : totalCount y ≤ totalCount x
    · have h1 : insertByCountDesc x (y :: ys) = x :: y :: ys := by
        simp [insertByCountDesc, hc]
      rw [h1, List.filter_cons]
      by_cases hx : totalCount x = c
      · simp [hx]
      · simp [hx]
    · have h1 : insertByCountDesc x (y :: ys) = y :: insertByCountDesc x ys := by
        simp [insertByCountDesc, hc]
      have hlt : totalCount x < totalCount y := lt_of_not_le hc
      rw [h1, List.filter_cons, ih]
      by_cases hx : totalCount x = c
      · have hyne : ¬(totalCount y = c) := fun hh => (ne_of_gt hlt) (hh.trans hx.symm)
        simp [hx, hyne, List.filter_cons]
      · by_cases hyc : totalCount y = c
        · simp [hx, hyc, List.filter_cons]
        · simp [hx, hyc, List.filter_cons]

/-- Stability of the sort: the subsequence of groups with any fixed
`totalCount` is unchanged by sorting. -/
theorem filter_sortByCountDesc (l : List ColorGroup) (c : ℕ) :
    (sortByCountDesc l).filter (fun g => totalCount g = c)
      = l.filter (fun g => totalCount g = c) := by
  induction l with
  | nil => rfl
  | cons x xs ih =>
    have h1 : sortByCountDesc (x :: xs) = insertByCountDesc x (sortByCountDesc xs) := rfl
    rw [h1, filter_insertByCountDesc, List.filter_cons]
    by_cases hx : totalCount x = c
    · simp [hx, ih]
    · simp [hx, ih]

/-- **C8**: the returned cluster sequence is sorted by descending
`totalCount`, and the sort is stable: for every count value, the clusters
carrying it appear in exactly their original discovery order (the order of
`buildGroups`). -/
theorem c8_sorted_desc_and_stable (entries : List ColorEntry) (t : ℚ) :
    (groupSimilarColors entries t).Sorted (fun a b => totalCount b ≤ totalCount a)
    ∧ ∀ c : ℕ, (groupSimilarColors entries t).filter (fun g => totalCount g = c)
        = (buildGroups entries t).filter (fun g => totalCount g = c) := by
  constructor
  · exact sortByCountDesc_sorted (buildGroups entries t)
  · intro c
    exact filter_sortByCountDesc (buildGroups entries t) c

/-- **C4**: on entry sequences with pairwise-distinct hex keys (which every
scan map yields) and a non-negative threshold, the Cluster Builder
partitions its input: the concatenation of all clusters' member lists is a
permutation of the input entries, so every entry appears in the member
list of exactly one cluster and the union of all members equals the input
set. -/
theorem c4_clusters_partition (entries : List ColorEntry) (t : ℚ) (ht : 0 ≤ t)
    (hnd : (entries.map (fun e => e.hex)).Nodup) :
    ((groupSimilarColors entries t).flatMap (fun g => g.members)).Perm entries := by
  have h1 := outerLoop_members_perm t entries [] hnd
  have h2 : entries.filter (fun e => !([] : List String).contains e.hex) = entries := by
    apply List.filter_congr ?_ |>.trans (List.filter_true entries)
    intro e _
    rfl
  rw [h2] at h1
  have h3 : (sortByCountDesc (buildGroups entries t)).Perm (buildGroups entries t) :=
    sortByCountDesc_perm _
  have h4 := h3.bind_right (fun g => g.members)
  exact h4.trans h1

/-- **C4 witness**: two distinct-hex entries at threshold 20. -/
theorem c4_witness :
    ((groupSimilarColors [⟨⟨1, 0, 0, 1⟩, "FF0000", [⟨"n1", "fill", 0⟩]⟩,
        ⟨⟨0, 0, 1, 1⟩, "0000FF", [⟨"n2", "fill", 0⟩]⟩] 20).flatMap
          (fun g => g.members)).Perm
      [⟨⟨1, 0, 0, 1⟩, "FF0000", [⟨"n1", "fill", 0⟩]⟩,
       ⟨⟨0, 0, 1, 1⟩, "0000FF", [⟨"n2", "fill", 0⟩]⟩] :=
  c4_clusters_partition _ 20 (by norm_num) (by decide)

/-- At threshold 0, the distance comparison holds exactly for
channel-identical colors (alpha ignored). -/
theorem distLE_zero_iff (a b : RGBA) :
    distLE a b 0 = true ↔ a.r = b.r ∧ a.g = b.g ∧ a.b = b.b := by
  unfold distLE
  constructor
  · intro h
    rw [Bool.and_eq_true, decide_eq_true_eq, decide_eq_true_eq] at h
    obtain ⟨-, h⟩ := h
    have hle : colorDistSq a b ≤ 0 := by simpa using h
    have h0 := colorDistSq_nonneg a b
    have hz : colorDistSq a b = 0 := le_antisymm hle h0
    unfold colorDistSq at hz
    have h1 := mul_self_nonneg ((a.r - b.r) * 255)
    have h2 := mul_self_nonneg ((a.g - b.g) * 255)
    have h3 := mul_self_nonneg ((a.b - b.b) * 255)
    have e1 : ((a.r - b.r) * 255) * ((a.r - b.r) * 255) = 0 := by linarith
    have e2 : ((a.g - b.g) * 255) * ((a.g - b.g) * 255) = 0 := by linarith
    have e3 : ((a.b - b.b) * 255) * ((a.b - b.b) * 255) = 0 := by linarith
    have f1 : (a.r - b.r) * 255 = 0 := mul_self_eq_zero.mp e1
    have f2 : (a.g - b.g) * 255 = 0 := mul_self_eq_zero.mp e2
    have f3 : (a.b - b.b) * 255 = 0 := mul_self_eq_zero.mp e3
    have g255 : (255 : ℚ) ≠ 0 := by norm_num
    refine ⟨?_, ?_, ?_⟩
    · have := (mul_eq_zero.mp f1).resolve_right g255
      linarith
    · have := (mul_eq_zero.mp f2).resolve_right g255
      linarith
    · have := (mul_eq_zero.mp f3).resolve_right g255
      linarith
  · rintro ⟨h1, h2, h3⟩
    rw [Bool.and_eq_true, decide_eq_true_eq, decide_eq_true_eq]
    refine ⟨le_refl 0, ?_⟩
    unfold colorDistSq
    rw [h1, h2, h3]
    simp

/-- At threshold 0, on entries whose hex key is the encoding of their own
color (the scan-map invariant) with pairwise-distinct keys, the outer loop
yields one singleton group per entry. -/
theorem outerLoop_zero_singletons :
    ∀ (l : List ColorEntry) (asg : List String),
      ((l.map (fun e => e.hex)).Nodup) →
      (∀ e ∈ l, e.hex = toHex e.color.r e.color.g e.color.b) →
      (∀ e ∈ l, ¬(e.hex ∈ asg)) →
      outerLoop 0 l asg
        = l.map (fun e => ⟨e, [e]⟩) := by
  intro l
  induction l with
  | nil =>
    intro asg _ _ _
    rfl
  | cons e rest ih =>
    intro asg hnd hhex hun
    rw [List.map_cons, List.nodup_cons] at hnd
    obtain ⟨hx, hnd2⟩ := hnd
    have hcm : ¬(e.hex ∈ asg) := hun e (List.mem_cons_self e rest)
    have h1 : outerLoop 0 (e :: rest) asg
        = ⟨e, e :: (innerLoop 0 e rest (e.hex :: asg)).1⟩
            :: outerLoop 0 rest (innerLoop 0 e rest (e.hex :: asg)).2 := by
      simp [outerLoop, List.contains, List.elem_eq_mem, hcm]
    have hspec := innerLoop_spec 0 e rest (e.hex :: asg) hnd2
    have hnil : rest.filter
          (fun y => !((e.hex :: asg).contains y.hex) && distLE e.color y.color 0) = [] := by
      rw [List.filter_eq_nil_iff]
      intro y hy
      intro hcontra
      rw [Bool.and_eq_true] at hcontra
      obtain ⟨hna, hdl⟩ := hcontra
      obtain ⟨hr, hg, hb⟩ := (distLE_zero_iff e.color y.color).mp hdl
      have hhexeq : y.hex = e.hex := by
        rw [hhex y (List.mem_cons_of_mem e hy), hhex e (List.mem_cons_self e rest),
          hr, hg, hb]
      exact hx (hhexeq ▸ List.mem_map_of_mem (fun z => z.hex) hy)
    rw [hnil] at hspec
    have hms1 : (innerLoop 0 e rest (e.hex :: asg)).1 = [] := by
      rw [hspec]
    have hasg2 : (innerLoop 0 e rest (e.hex :: asg)).2 = e.hex :: asg := by
      rw [hspec]
      rfl
    rw [h1, hms1, hasg2, List.map_cons]
    have hrec := ih (e.hex :: asg) hnd2
      (fun z hz => hhex z (List.mem_cons_of_mem e hz))
      (fun z hz => by
        rw [List.mem_cons]
        rintro (hze | hza)
        · exact hx (hze ▸ List.mem_map_of_mem (fun w => w.hex) hz)
        · exact hun z (List.mem_cons_of_mem e hz) hza)
    rw [hrec]

/-- **C9**: clustering with threshold 0 groups by exact hex key only: on a
scan map (pairwise-distinct hex keys, each the encoding of its entry's
color) the number of clusters equals the number of entries, and every
cluster is the singleton of its representative — no two distinct entries
are grouped together. -/
theorem c9_zero_threshold_one_cluster_per_key (entries : List ColorEntry)
    (hnd : (entries.map (fun e => e.hex)).Nodup)
    (hhex : ∀ e ∈ entries, e.hex = toHex e.color.r e.color.g e.color.b) :
    (groupSimilarColors entries 0).length = entries.length
    ∧ ∀ g ∈ groupSimilarColors entries 0, g.members = [g.representative] := by
  have hbuild : buildGroups entries 0 = entries.map (fun e => ⟨e, [e]⟩) :=
    outerLoop_zero_singletons entries [] hnd hhex (fun e _ => List.not_mem_nil e.hex)
  have hperm : (groupSimilarColors entries 0).Perm (buildGroups entries 0) :=
    sortByCountDesc_perm _
  constructor
  · rw [hperm.length_eq, hbuild, List.length_map]
  · intro g hg
    have hmem : g ∈ buildGroups entries 0 := hperm.mem_iff.mp hg
    rw [hbuild] at hmem
    obtain ⟨e, -, hge⟩ := List.mem_map.mp hmem
    rw [← hge]

/-- **C9 witness**: two exact-keyed entries at threshold 0. -/
theorem c9_witness :
    (groupSimilarColors [⟨⟨1, 0, 0, 1⟩, "FF0000", [⟨"n1", "fill", 0⟩]⟩,
        ⟨⟨0, 0, 1, 1⟩, "0000FF", [⟨"n2", "fill", 0⟩]⟩] 0).length = 2
    ∧ ∀ g ∈ groupSimilarColors [⟨⟨1, 0, 0, 1⟩, "FF0000", [⟨"n1", "fill", 0⟩]⟩,
        ⟨⟨0, 0, 1, 1⟩, "0000FF", [⟨"n2", "fill", 0⟩]⟩] 0,
        g.members = [g.representative] :=
  c9_zero_threshold_one_cluster_per_key
    [⟨⟨1, 0, 0, 1⟩, "FF0000", [⟨"n1", "fill", 0⟩]⟩,
     ⟨⟨0, 0, 1, 1⟩, "0000FF", [⟨"n2", "fill", 0⟩]⟩]
    (by decide) (by decide)

/-- Channel facts for one encoded byte: two characters, all hexadecimal
digits (hence none of the characters the parser treats specially), whose
parse value is the byte itself. -/
theorem upHex2_props : ∀ b : ℕ, b < 256 →
    (upHex2 b).length = 2
    ∧ parseHexAux 0 (upHex2 b) = b
    ∧ ∀ c ∈ upHex2 b, (hexDigitVal c).isSome = true ∧ ¬(c = '#')
        ∧ c.isWhitespace = false ∧ ¬(c = '-') ∧ ¬(c = '+')
        ∧ ¬(c = 'x') ∧ ¬(c = 'X') := by
  decide

/-- `removeFirstHash` is the identity on hash-free character lists. -/
theorem removeFirstHash_id (s : List Char) (h : ∀ c ∈ s, ¬(c = '#')) :
    removeFirstHash s = s := by
  induction s with
  | nil => rfl
  | cons c t ih =>
    have hc := h c (List.mem_cons_self c t)
    have ht := ih (fun c2 h2 => h c2 (List.mem_cons_of_mem c h2))
    simp [removeFirstHash, hc, ht]

/-- `parseHexAux` splits over append when the prefix is all hex digits. -/
theorem parseHexAux_append (l1 l2 : List Char)
    (h : ∀ c ∈ l1, (hexDigitVal c).isSome = true) :
    ∀ acc, parseHexAux acc (l1 ++ l2) = parseHexAux (parseHexAux acc l1) l2 := by
  induction l1 with
  | nil =>
    intro acc
    rfl
  | cons c cs ih =>
    intro acc
    obtain ⟨d, hd⟩ := Option.isSome_iff_exists.mp (h c (List.mem_cons_self c cs))
    rw [List.cons_append]
    simp only [parseHexAux, hd]
    exact ih (fun c2 h2 => h c2 (List.mem_cons_of_mem c h2)) (16 * acc + d)

/-- On a two-character hex-digit list the accumulator contributes `256 ·`. -/
theorem parseHexAux_two (c d : Char) (acc : ℕ)
    (hc : (hexDigitVal c).isSome = true) (hd : (hexDigitVal d).isSome = true) :
    parseHexAux acc [c, d] = 256 * acc + parseHexAux 0 [c, d] := by
  obtain ⟨vc, hvc⟩ := Option.isSome_iff_exists.mp hc
  obtain ⟨vd, hvd⟩ := Option.isSome_iff_exists.mp hd
  simp only [parseHexAux, hvc, hvd]
  ring

/-- `Math.round` of a normalized channel stays in the byte range. -/
theorem jsRound_byte (v : ℚ) (h0 : 0 ≤ v) (h1 : v ≤ 1) :
    0 ≤ jsRound (v * 255) ∧ jsRound (v * 255) ≤ 255 := by
  rw [jsRound_eq_floor]
  constructor
  · apply Int.floor_nonneg.mpr
    linarith
  · have hlt : v * 255 + 1/2 < ((256 : ℤ) : ℚ) := by
      push_cast
      linarith
    have h2 := Int.floor_lt.mpr hlt
    omega

/-- The rounding error of `Math.round` is at most one half. -/
theorem jsRound_close (q : ℚ) : |((jsRound q : ℤ) : ℚ) - q| ≤ 1/2 := by
  rw [jsRound_eq_floor, abs_le]
  constructor
  · have h := Int.lt_floor_add_one (q + 1/2)
    push_cast at h ⊢
    linarith
  · have h := Int.floor_le (q + 1/2)
    push_cast at h ⊢
    linarith

/-- **C10**: for channels in `[0, 1]`, decoding the encoding of a color is
within `1/255` of the original on every channel (quantization loss only). -/
theorem c10_decode_encode_within_one_255th (r g b : ℚ)
    (h0r : 0 ≤ r) (h1r : r ≤ 1) (h0g : 0 ≤ g) (h1g : g ≤ 1)
    (h0b : 0 ≤ b) (h1b : b ≤ 1) :
    |(hexToRgb (toHex r g b)).r - r| ≤ 1/255
    ∧ |(hexToRgb (toHex r g b)).g - g| ≤ 1/255
    ∧ |(hexToRgb (toHex r g b)).b - b| ≤ 1/255 := by
  obtain ⟨hr0, hr255⟩ := jsRound_byte r h0r h1r
  obtain ⟨hg0, hg255⟩ := jsRound_byte g h0g h1g
  obtain ⟨hb0, hb255⟩ := jsRound_byte b h0b h1b
  set br := jsRound (r * 255) with hbrdef
  set bg := jsRound (g * 255) with hbgdef
  set bb := jsRound (b * 255) with hbbdef
  have hnr : ((br.toNat : ℤ)) = br := Int.toNat_of_nonneg hr0
  have hng : ((bg.toNat : ℤ)) = bg := Int.toNat_of_nonneg hg0
  have hnb : ((bb.toNat : ℤ)) = bb := Int.toNat_of_nonneg hb0
  have hnrlt : br.toNat < 256 := by omega
  have hnglt : bg.toNat < 256 := by omega
  have hnblt : bb.toNat < 256 := by omega
  set L := upHex2 br.toNat ++ upHex2 bg.toNat ++ upHex2 bb.toNat with hL
  have hdata : (toHex r g b).data = L := by
    show ((toHexChan r ++ toHexChan g ++ toHexChan b).map Char.toUpper) = L
    rw [List.map_append, List.map_append, hL]
    unfold upHex2 toHexChan
    rw [hnr, hng, hnb, ← hbrdef, ← hbgdef, ← hbbdef]
  obtain ⟨hlenr, hparser, hclassr⟩ := upHex2_props br.toNat hnrlt
  obtain ⟨hleng, hparseg, hclassg⟩ := upHex2_props bg.toNat hnglt
  obtain ⟨hlenb, hparseb, hclassb⟩ := upHex2_props bb.toNat hnblt
  have hclassL : ∀ c ∈ L, (hexDigitVal c).isSome = true ∧ ¬(c = '#')
      ∧ c.isWhitespace = false ∧ ¬(c = '-') ∧ ¬(c = '+')
      ∧ ¬(c = 'x') ∧ ¬(c = 'X') := by
    intro c hc
    rw [hL, List.append_assoc] at hc
    rcases List.mem_append.mp hc with h1 | h2
    · exact hclassr c h1
    · rcases List.mem_append.mp h2 with h3 | h4
      · exact hclassg c h3
      · exact hclassb c h4
  have hnohash : removeFirstHash L = L :=
    removeFirstHash_id L (fun c hc => (hclassL c hc).2.1)
  obtain ⟨a0, a1, hA⟩ := List.length_eq_two.mp hlenr
  obtain ⟨g0, g1, hG⟩ := List.length_eq_two.mp hleng
  obtain ⟨b0, b1, hB⟩ := List.length_eq_two.mp hlenb
  have hLcons : L = a0 :: a1 :: (upHex2 bg.toNat ++ upHex2 bb.toNat) := by
    rw [hL, hA, List.append_assoc]
    rfl
  have ha0 := hclassr a0 (by rw [hA]; exact List.mem_cons_self _ _)
  have ha1 := hclassr a1 (by rw [hA]; simp)
  have hdw : L.dropWhile Char.isWhitespace = L := by
    rw [hLcons, List.dropWhile_cons]
    simp [ha0.2.2.1]
  have hsign : parseSign L = (false, L) := by
    rw [hLcons]
    simp [parseSign, ha0.2.2.2.1, ha0.2.2.2.2.1]
  have h0x : drop0x L = L := by
    rw [hLcons]
    simp [drop0x, ha1.2.2.2.2.2.1, ha1.2.2.2.2.2.2]
  have hparse : jsParseInt16 L = some ((parseHexAux 0 L : ℕ) : ℤ) := by
    simp only [jsParseInt16, hdw, hsign, h0x]
    rw [hLcons]
    simp [ha0.1, parseSign, ha0.2.2.2.1, ha0.2.2.2.2.1,
      drop0x, ha1.2.2.2.2.2.1, ha1.2.2.2.2.2.2]
  have hval : parseHexAux 0 L
      = 65536 * br.toNat + 256 * bg.toNat + bb.toNat := by
    rw [hL]
    rw [parseHexAux_append (upHex2 br.toNat ++ upHex2 bg.toNat) (upHex2 bb.toNat)
      (fun c hc => by
        rcases List.mem_append.mp hc with h1 | h2
        · exact (hclassr c h1).1
        · exact (hclassg c h2).1)]
    rw [parseHexAux_append (upHex2 br.toNat) (upHex2 bg.toNat)
      (fun c hc => (hclassr c hc).1)]
    rw [hparser]
    rw [hG, hB]
    rw [parseHexAux_two g0 g1 br.toNat
      ((hclassg g0 (by rw [hG]; exact List.mem_cons_self _ _)).1)
      ((hclassg g1 (by rw [hG]; simp)).1)]
    rw [show parseHexAux 0 [g0, g1] = bg.toNat from hG ▸ hparseg]
    rw [parseHexAux_two b0 b1 (256 * br.toNat + bg.toNat)
      ((hclassb b0 (by rw [hB]; exact List.mem_cons_self _ _)).1)
      ((hclassb b1 (by rw [hB]; simp)).1)]
    rw [show parseHexAux 0 [b0, b1] = bb.toNat from hB ▸ hparseb]
    ring
  have hu : u32Of (jsParseInt16 L) = 65536 * br.toNat + 256 * bg.toNat + bb.toNat := by
    rw [hparse, hval]
    have hlt : ((65536 * br.toNat + 256 * bg.toNat + bb.toNat : ℕ) : ℤ) < 4294967296 := by
      push_cast
      omega
    simp only [u32Of]
    rw [Int.emod_eq_of_lt (by positivity) hlt, Int.toNat_natCast]
  have harithr : (65536 * br.toNat + 256 * bg.toNat + bb.toNat) / 65536 % 256
      = br.toNat := by omega
  have harithg : (65536 * br.toNat + 256 * bg.toNat + bb.toNat) / 256 % 256
      = bg.toNat := by omega
  have harithb : (65536 * br.toNat + 256 * bg.toNat + bb.toNat) % 256
      = bb.toNat := by omega
  have hRGB : hexToRgb (toHex r g b)
      = ⟨(br.toNat : ℚ) / 255, (bg.toNat : ℚ) / 255, (bb.toNat : ℚ) / 255⟩ := by
    simp only [hexToRgb]
    rw [hdata, hnohash, hu, harithr, harithg, harithb]
  rw [hRGB]
  have hcastr : ((br.toNat : ℚ)) = ((br : ℤ) : ℚ) := by exact_mod_cast hnr
  have hcastg : ((bg.toNat : ℚ)) = ((bg : ℤ) : ℚ) := by exact_mod_cast hng
  have hcastb : ((bb.toNat : ℚ)) = ((bb : ℤ) : ℚ) := by exact_mod_cast hnb
  have hcr := jsRound_close (r * 255)
  have hcg := jsRound_close (g * 255)
  have hcb := jsRound_close (b * 255)
  rw [← hbrdef] at hcr
  rw [← hbgdef] at hcg
  rw [← hbbdef] at hcb
  refine ⟨?_, ?_, ?_⟩
  · show |(br.toNat : ℚ) / 255 - r| ≤ 1/255
    rw [hcastr]
    have heq : ((br : ℤ) : ℚ) / 255 - r = (((br : ℤ) : ℚ) - r * 255) / 255 := by ring
    rw [heq, abs_div, abs_of_pos (show (0:ℚ) < 255 by norm_num),
      div_le_iff (show (0:ℚ) < 255 by norm_num)]
    rw [abs_le] at hcr ⊢
    constructor <;> [linarith [hcr.1]; linarith [hcr.2]]
  · show |(bg.toNat : ℚ) / 255 - g| ≤ 1/255
    rw [hcastg]
    have heq : ((bg : ℤ) : ℚ) / 255 - g = (((bg : ℤ) : ℚ) - g * 255) / 255 := by ring
    rw [heq, abs_div, abs_of_pos (show (0:ℚ) < 255 by norm_num),
      div_le_iff (show (0:ℚ) < 255 by norm_num)]
    rw [abs_le] at hcg ⊢
    constructor <;> [linarith [hcg.1]; linarith [hcg.2]]
  · show |(bb.toNat : ℚ) / 255 - b| ≤ 1/255
    rw [hcastb]
    have heq : ((bb : ℤ) : ℚ) / 255 - b = (((bb : ℤ) : ℚ) - b * 255) / 255 := by ring
    rw [heq, abs_div, abs_of_pos (show (0:ℚ) < 255 by norm_num),
      div_le_iff (show (0:ℚ) < 255 by norm_num)]
    rw [abs_le] at hcb ⊢
    constructor <;> [linarith [hcb.1]; linarith [hcb.2]]

/-- **C10 witness**: the round trip at the concrete color `(1/3, 0, 1)`. -/
theorem c10_witness :
    |(hexToRgb (toHex (1/3) 0 1)).r - 1/3| ≤ 1/255
    ∧ |(hexToRgb (toHex (1/3) 0 1)).g - 0| ≤ 1/255
    ∧ |(hexToRgb (toHex (1/3) 0 1)).b - 1| ≤ 1/255 :=
  c10_decode_encode_within_one_255th (1/3) 0 1 (by norm_num) (by norm_num)
    le_rfl (by norm_num) (by norm_num) le_rfl
